import Mathlib

/-!
Verification of the side-by-side diff alignment engine of the `staged`
repository (Rust sources under `src/src-tauri/src/git/`).

Two variants of the engine exist in the source:
* `GitDiff` embeds `src/src-tauri/src/git/diff.rs` (the row-oriented
  variant: `build_full_file_side_by_side`, `flush_pending_changes`,
  `get_untracked_file_diff`).
* `RefDiff` embeds `src/src-tauri/src/git/diff/mod.rs` (the ref-based
  variant: `get_ref_diff`, `synthesize_hunks`, `is_binary_content`).
  Its submodule `side_by_side.rs` is not present in the sources; the
  alignment builder is modelled from the spec where noted.

Rust `u32`/`usize` values are modelled as `Nat` (line counts and row
indices; overflow is unreachable for list-backed data).
-/

/-- Split a character list at every `\n`, keeping empty segments (the
segments of Rust's `str::split('\n')`). -/
def splitNlAux (acc : List Char) : List Char → List (List Char)
  | [] => [acc.reverse]
  | c :: cs =>
    if c = '\n' then acc.reverse :: splitNlAux [] cs
    else splitNlAux (c :: acc) cs

/-- Strip one trailing carriage return, as Rust's `str::lines` does for
lines terminated by `\r\n`. -/
def stripCR (l : List Char) : List Char :=
  if l.getLast? = some '\r' then l.dropLast else l

/-- Model of Rust's `str::lines()` on the string's characters: split at
`\n`, drop a final empty segment (so a trailing newline does not create
an extra line), and strip a `\r` preceding each `\n`.  A lone final `\r`
is kept, as in Rust. -/
def rustLines (s : String) : List String :=
  let parts := splitNlAux [] s.data
  ((parts.dropLast.map stripCR).map String.mk) ++
    (match parts.getLast? with
     | some [] => []
     | some l => [String.mk l]
     | none => [])

namespace GitDiff

/-- `DiffLine` from `src/src-tauri/src/git/diff.rs` (lines 10-16). -/
structure DiffLine where
  line_type : String
  old_lineno : Option Nat
  new_lineno : Option Nat
  content : String
deriving Repr, DecidableEq, Inhabited

/-- `DiffHunk` from `src/src-tauri/src/git/diff.rs` (lines 19-27). -/
structure DiffHunk where
  old_start : Nat
  old_lines : Nat
  new_start : Nat
  new_lines : Nat
  header : String
  lines : List DiffLine
deriving Repr, DecidableEq, Inhabited

/-- `DiffRow` from `src/src-tauri/src/git/diff.rs` (lines 30-44):
either a line of code or a collapse indicator
`Collapse count start_line other_pane_index`. -/
inductive DiffRow where
  | Line (line : DiffLine)
  | Collapse (count : Nat) (start_line : Nat) (other_pane_index : Nat)
deriving Repr, DecidableEq, Inhabited

/-- `FileDiff` from `src/src-tauri/src/git/diff.rs` (lines 47-56). -/
structure FileDiff where
  path : String
  old_path : Option String
  status : String
  hunks : List DiffHunk
  is_binary : Bool
  old_content : List DiffRow
  new_content : List DiffRow
deriving Repr, DecidableEq, Inhabited

/-- `get_untracked_file_diff` from `src/src-tauri/src/git/diff.rs`
(lines 172-228), with the file content passed in place of the
filesystem read (the function's only I/O). -/
def get_untracked_file_diff (file_path : String) (content : String) : FileDiff :=
  let lines : List DiffLine := (rustLines content).enum.map fun p =>
    { line_type := "added", old_lineno := none,
      new_lineno := some (p.1 + 1), content := p.2 }
  let line_count := lines.length
  let old_content : List DiffRow :=
    if line_count > 0 then
      [DiffRow.Collapse line_count 1 0]
    else []
  let new_content : List DiffRow := lines.map DiffRow.Line
  { path := file_path
    old_path := none
    status := "untracked"
    hunks := [{ old_start := 0, old_lines := 0, new_start := 1,
                new_lines := line_count,
                header := "@@ -0,0 +1," ++ toString line_count ++ " @@",
                lines := lines }]
    is_binary := false
    old_content := old_content
    new_content := new_content }

/-- `flush_pending_changes` from `src/src-tauri/src/git/diff.rs`
(lines 584-649).  The two `Vec::insert` calls are modelled with
`List.insertIdx` at the recorded indices. -/
def flush_pending_changes (old_content new_content : List DiffRow)
    (pending_removed pending_added : List DiffLine) :
    List DiffRow × List DiffRow :=
  if pending_removed.isEmpty && pending_added.isEmpty then
    (old_content, new_content)
  else
    let removed_count := pending_removed.length
    let added_count := pending_added.length
    let removed_start_line := ((pending_removed.head?).bind (·.old_lineno)).getD 0
    let added_start_line := ((pending_added.head?).bind (·.new_lineno)).getD 0
    let old_insert_index := old_content.length
    let new_insert_index := new_content.length
    let old1 := old_content ++ pending_removed.map DiffRow.Line
    let new1 := new_content ++ pending_added.map DiffRow.Line
    let new2 :=
      if removed_count > 0 then
        new1.insertIdx new_insert_index
          (DiffRow.Collapse removed_count removed_start_line old_insert_index)
      else new1
    let old2 :=
      if added_count > 0 then
        let adjusted_new_index :=
          if removed_count > 0 then new_insert_index + 1 else new_insert_index
        old1.insertIdx (old_insert_index + removed_count)
          (DiffRow.Collapse added_count added_start_line adjusted_new_index)
      else old1
    (old2, new2)

/-- Mutable cursor state of `build_full_file_side_by_side`
(`old_content`, `new_content`, `old_idx`, `new_idx`; diff.rs lines
425-429). -/
structure BuildState where
  old_content : List DiffRow
  new_content : List DiffRow
  old_idx : Nat
  new_idx : Nat
deriving Repr, DecidableEq, Inhabited

/-- The `while old_idx + 1 < hunk_old_start && new_idx + 1 < hunk_new_start`
loop of `build_full_file_side_by_side` (diff.rs lines 438-459), emitting
unchanged context rows to both panes.  The first argument is a fuel
counter; the caller passes `hunk_old_start`, which bounds the number of
iterations, so the recursion is exactly the source loop.  Returns the
rows emitted to each pane and the final cursor values. -/
def gapRows (old_lines : List String) (hunk_old_start hunk_new_start : Nat) :
    Nat → Nat → Nat → List DiffRow × List DiffRow × Nat × Nat
  | 0, old_idx, new_idx => ([], [], old_idx, new_idx)
  | fuel + 1, old_idx, new_idx =>
    if old_idx + 1 < hunk_old_start ∧ new_idx + 1 < hunk_new_start then
      let content := old_lines.getD old_idx ""
      let rest := gapRows old_lines hunk_old_start hunk_new_start fuel
        (old_idx + 1) (new_idx + 1)
      (DiffRow.Line ⟨"context", some (old_idx + 1), none, content⟩ :: rest.1,
       DiffRow.Line ⟨"context", none, some (new_idx + 1), content⟩ :: rest.2.1,
       rest.2.2)
    else ([], [], old_idx, new_idx)

/-- One iteration of the `for line in &hunk.lines` loop of
`build_full_file_side_by_side` (diff.rs lines 465-520), threading the
pane/cursor state and the two pending buffers. -/
def hunkLineStep (st : BuildState) (pending_removed pending_added : List DiffLine)
    (line : DiffLine) : BuildState × List DiffLine × List DiffLine :=
  if line.line_type = "context" then
    let flushed := flush_pending_changes st.old_content st.new_content
      pending_removed pending_added
    let old_idx := match line.old_lineno with
      | some ln => ln
      | none => st.old_idx
    let new_idx := match line.new_lineno with
      | some ln => ln
      | none => st.new_idx
    (⟨flushed.1 ++ [DiffRow.Line ⟨"context", line.old_lineno, none, line.content⟩],
      flushed.2 ++ [DiffRow.Line ⟨"context", none, line.new_lineno, line.content⟩],
      old_idx, new_idx⟩, [], [])
  else if line.line_type = "removed" then
    let state :=
      if pending_added.isEmpty then
        (st.old_content, st.new_content, pending_removed, pending_added)
      else
        let flushed := flush_pending_changes st.old_content st.new_content
          pending_removed pending_added
        (flushed.1, flushed.2, [], [])
    let old_idx := match line.old_lineno with
      | some ln => ln
      | none => st.old_idx
    (⟨state.1, state.2.1, old_idx, st.new_idx⟩,
      state.2.2.1 ++ [line], state.2.2.2)
  else if line.line_type = "added" then
    let new_idx := match line.new_lineno with
      | some ln => ln
      | none => st.new_idx
    (⟨st.old_content, st.new_content, st.old_idx, new_idx⟩,
      pending_removed, pending_added ++ [line])
  else (st, pending_removed, pending_added)

/-- The hunk-line loop of `build_full_file_side_by_side` (diff.rs lines
465-520) over a list of remaining lines. -/
def processLines : List DiffLine → BuildState → List DiffLine → List DiffLine →
    BuildState × List DiffLine × List DiffLine
  | [], st, pending_removed, pending_added => (st, pending_removed, pending_added)
  | line :: rest, st, pending_removed, pending_added =>
    let step := hunkLineStep st pending_removed pending_added line
    processLines rest step.1 step.2.1 step.2.2

/-- One iteration of the `for hunk in hunks` loop of
`build_full_file_side_by_side` (diff.rs lines 432-529): fill the
unchanged gap before the hunk, process its lines, then flush the
remaining pending buffers. -/
def processHunk (old_lines : List String) (st : BuildState) (hunk : DiffHunk) :
    BuildState :=
  let gap := gapRows old_lines hunk.old_start hunk.new_start hunk.old_start
    st.old_idx st.new_idx
  let st1 : BuildState := ⟨st.old_content ++ gap.1, st.new_content ++ gap.2.1,
    gap.2.2.1, gap.2.2.2⟩
  let looped := processLines hunk.lines st1 [] []
  let flushed := flush_pending_changes looped.1.old_content looped.1.new_content
    looped.2.1 looped.2.2
  ⟨flushed.1, flushed.2, looped.1.old_idx, looped.1.new_idx⟩

/-- The `while old_idx < old_lines.len() && new_idx < new_lines.len()`
trailing loop (diff.rs lines 532-553); fuel is `old_lines.length`, which
bounds the iteration count.  Returns rows for both panes and the final
cursors. -/
def tailBoth (old_lines new_lines : List String) :
    Nat → Nat → Nat → List DiffRow × List DiffRow × Nat × Nat
  | 0, old_idx, new_idx => ([], [], old_idx, new_idx)
  | fuel + 1, old_idx, new_idx =>
    if old_idx < old_lines.length ∧ new_idx < new_lines.length then
      let content := old_lines.getD old_idx ""
      let rest := tailBoth old_lines new_lines fuel (old_idx + 1) (new_idx + 1)
      (DiffRow.Line ⟨"context", some (old_idx + 1), none, content⟩ :: rest.1,
       DiffRow.Line ⟨"context", none, some (new_idx + 1), content⟩ :: rest.2.1,
       rest.2.2)
    else ([], [], old_idx, new_idx)

/-- The `while old_idx < old_lines.len()` loop (diff.rs lines 556-566). -/
def tailOld (old_lines : List String) : Nat → Nat → List DiffRow
  | 0, _ => []
  | fuel + 1, old_idx =>
    if old_idx < old_lines.length then
      DiffRow.Line ⟨"context", some (old_idx + 1), none, old_lines.getD old_idx ""⟩ ::
        tailOld old_lines fuel (old_idx + 1)
    else []

/-- The `while new_idx < new_lines.len()` loop (diff.rs lines 568-578). -/
def tailNew (new_lines : List String) : Nat → Nat → List DiffRow
  | 0, _ => []
  | fuel + 1, new_idx =>
    if new_idx < new_lines.length then
      DiffRow.Line ⟨"context", none, some (new_idx + 1), new_lines.getD new_idx ""⟩ ::
        tailNew new_lines fuel (new_idx + 1)
    else []

/-- `build_full_file_side_by_side` from `src/src-tauri/src/git/diff.rs`
(lines 389-581).  The source also builds two `HashSet`s of changed line
numbers (lines 404-423) that are never read afterwards; they are omitted
here.  Returns `(old_content, new_content)`. -/
def build_full_file_side_by_side (old_file_content new_file_content : Option String)
    (hunks : List DiffHunk) : List DiffRow × List DiffRow :=
  let old_lines := (old_file_content.map rustLines).getD []
  let new_lines := (new_file_content.map rustLines).getD []
  let st := hunks.foldl (processHunk old_lines) ⟨[], [], 0, 0⟩
  let both := tailBoth old_lines new_lines old_lines.length st.old_idx st.new_idx
  let oldTail := tailOld old_lines old_lines.length both.2.2.1
  let newTail := tailNew new_lines new_lines.length both.2.2.2
  (st.old_content ++ both.1 ++ oldTail, st.new_content ++ both.2.1 ++ newTail)

end GitDiff

namespace RefDiff

/-- `GitError` from `src/src-tauri/src/git/mod.rs`, as used by
`get_ref_diff`. -/
structure GitError where
  message : String
deriving Repr, DecidableEq, Inhabited

/-- `HunkLine` as constructed by `synthesize_hunks` in
`src/src-tauri/src/git/diff/mod.rs` (declared in the `parse` submodule,
whose file is not in the sources; its fields are fixed by the
construction sites in `mod.rs`). -/
structure HunkLine where
  line_type : String
  old_lineno : Option Nat
  new_lineno : Option Nat
  content : String
deriving Repr, DecidableEq, Inhabited

/-- `DiffHunk` of the ref-based variant (re-exported from the `parse`
submodule; fields fixed by the construction sites in `mod.rs`). -/
structure DiffHunk where
  old_start : Nat
  old_lines : Nat
  new_start : Nat
  new_lines : Nat
  header : String
  lines : List HunkLine
deriving Repr, DecidableEq, Inhabited

/-- `DiffLine` from `src/src-tauri/src/git/diff/mod.rs` (lines 28-36). -/
structure DiffLine where
  line_type : String
  lineno : Nat
  content : String
deriving Repr, DecidableEq, Inhabited

/-- `Span` from `src/src-tauri/src/git/diff/mod.rs` (lines 39-43): a
half-open interval of row indices.  Rust's field `end` is a Lean
keyword, so it is called `stop` here. -/
structure Span where
  start : Nat
  stop : Nat
deriving Repr, DecidableEq, Inhabited

/-- `SourceLines` from `src/src-tauri/src/git/diff/mod.rs` (lines 47-57). -/
structure SourceLines where
  old_start : Option Nat
  old_end : Option Nat
  new_start : Option Nat
  new_end : Option Nat
deriving Repr, DecidableEq, Inhabited

/-- `Range` from `src/src-tauri/src/git/diff/mod.rs` (lines 60-69). -/
structure Range where
  before : Span
  after : Span
  changed : Bool
  source_lines : Option SourceLines
deriving Repr, DecidableEq, Inhabited

/-- `DiffSide` from `src/src-tauri/src/git/diff/mod.rs` (lines 72-76). -/
structure DiffSide where
  path : Option String
  lines : List DiffLine
deriving Repr, DecidableEq, Inhabited

/-- `FileDiff` from `src/src-tauri/src/git/diff/mod.rs` (lines 79-88). -/
structure FileDiff where
  status : String
  is_binary : Bool
  hunks : List DiffHunk
  before : DiffSide
  after : DiffSide
  ranges : List Range
deriving Repr, DecidableEq, Inhabited

/-- `is_binary_content` from `src/src-tauri/src/git/diff/mod.rs`
(lines 363-366): `bytes.contains(&0)` on the UTF-8 bytes of the string.
A 0x00 byte occurs in UTF-8 text exactly when the character `U+0000`
occurs, so the check is modelled on the string's characters. -/
def is_binary_content (s : String) : Bool :=
  s.data.contains (Char.ofNat 0)

/-- `synthesize_hunks` from `src/src-tauri/src/git/diff/mod.rs`
(lines 236-297). -/
def synthesize_hunks (before_content after_content : Option String) :
    List DiffHunk :=
  match before_content, after_content with
  | none, some content =>
    let lines : List HunkLine := (rustLines content).enum.map fun p =>
      ⟨"added", none, some (p.1 + 1), p.2⟩
    let line_count := lines.length
    if line_count = 0 then []
    else
      [⟨0, 0, 1, line_count,
        "@@ -0,0 +1," ++ toString line_count ++ " @@", lines⟩]
  | some content, none =>
    let lines : List HunkLine := (rustLines content).enum.map fun p =>
      ⟨"removed", some (p.1 + 1), none, p.2⟩
    let line_count := lines.length
    if line_count = 0 then []
    else
      [⟨1, line_count, 0, 0,
        "@@ -1," ++ toString line_count ++ " +0,0 @@", lines⟩]
  | _, _ => []

/-- Modelled from the spec: the Alignment Builder loop, steps 4 and 5 of
spec section 4.2.  The implementing file
`src/src-tauri/src/git/diff/side_by_side.rs` is not present in the
sources; this follows the spec's cursor walk literally.  Before each
hunk an unchanged range closes the gap, then the hunk's changed range is
emitted and the cursors advance to the hunk's end coordinates; after the
last hunk a trailing unchanged range covers any remainder. -/
def align_loop (old_len new_len : Nat) :
    Nat → Nat → List DiffHunk → List Range
  | old_pos, new_pos, [] =>
    if old_pos < old_len ∨ new_pos < new_len then
      [⟨⟨old_pos, old_len⟩, ⟨new_pos, new_len⟩, false, none⟩]
    else []
  | old_pos, new_pos, hunk :: rest =>
    (if old_pos < hunk.old_start ∨ new_pos < hunk.new_start then
      [⟨⟨old_pos, hunk.old_start⟩, ⟨new_pos, hunk.new_start⟩, false, none⟩]
     else []) ++
    ⟨⟨hunk.old_start, hunk.old_start + hunk.old_lines⟩,
      ⟨hunk.new_start, hunk.new_start + hunk.new_lines⟩, true, none⟩ ::
    align_loop old_len new_len (hunk.old_start + hunk.old_lines)
      (hunk.new_start + hunk.new_lines) rest

/-- Modelled from the spec: the Alignment Builder of spec section 4.2
(`side_by_side.rs` is not present in the sources).  Steps 1-3 handle the
empty-hunks cases; otherwise the hunks are walked by `align_loop`.
`source_lines` is left empty, as the spec does not specify its
construction. -/
def build_ranges (old_len new_len : Nat) (hunks : List DiffHunk) : List Range :=
  if old_len = 0 ∧ new_len = 0 then []
  else
    match hunks with
    | [] =>
      if old_len = 0 ∨ new_len = 0 then
        [⟨⟨0, old_len⟩, ⟨0, new_len⟩, true, none⟩]
      else
        [⟨⟨0, old_len⟩, ⟨0, new_len⟩, false, none⟩]
    | _ => align_loop old_len new_len 0 0 hunks

/-- Modelled from the spec: `side_by_side::build`
(`side_by_side.rs` is not present in the sources).  Per the module doc
it returns the full file content of both sides with line-level change
classification, plus the alignment ranges of spec section 4.2. -/
def side_by_side_build (before_content after_content : Option String)
    (hunks : List DiffHunk) : List DiffLine × List DiffLine × List Range :=
  let old_lines := (before_content.map rustLines).getD []
  let new_lines := (after_content.map rustLines).getD []
  let before_rows := old_lines.enum.map fun p =>
    DiffLine.mk
      (if hunks.any fun h => h.lines.any fun l =>
          l.line_type = "removed" && l.old_lineno = some (p.1 + 1) then
        "removed" else "context")
      (p.1 + 1) p.2
  let after_rows := new_lines.enum.map fun p =>
    DiffLine.mk
      (if hunks.any fun h => h.lines.any fun l =>
          l.line_type = "added" && l.new_lineno = some (p.1 + 1) then
        "added" else "context")
      (p.1 + 1) p.2
  (before_rows, after_rows, build_ranges old_lines.length new_lines.length hunks)

/-- `get_ref_diff` from `src/src-tauri/src/git/diff/mod.rs`
(lines 109-230), with its I/O boundary made explicit: the contents
fetched from the two refs are passed as arguments, and the hunk list the
external git2 diff would produce for the both-sides-present case is
passed as `git_hunks` (the source obtains it via `parse::parse_diff`). -/
def get_ref_diff_core (file_path : String)
    (before_content after_content : Option String)
    (git_hunks : List DiffHunk) : Except GitError FileDiff :=
  if before_content.isNone && after_content.isNone then
    .error ⟨"File not found in either ref: " ++ file_path⟩
  else
    let status : String :=
      match before_content, after_content with
      | none, some _ => "added"
      | some _, none => "deleted"
      | _, _ => "modified"
    if (before_content.map fun c => is_binary_content c).getD false then
      .ok ⟨status, true, [], ⟨some file_path, []⟩, ⟨some file_path, []⟩, []⟩
    else if (after_content.map fun c => is_binary_content c).getD false then
      .ok ⟨status, true, [], ⟨some file_path, []⟩, ⟨some file_path, []⟩, []⟩
    else
      let hunks :=
        if before_content.isNone || after_content.isNone then
          synthesize_hunks before_content after_content
        else git_hunks
      let built := side_by_side_build before_content after_content hunks
      .ok ⟨status, false, hunks,
        ⟨if before_content.isSome then some file_path else none, built.1⟩,
        ⟨if after_content.isSome then some file_path else none, built.2.1⟩,
        built.2.2⟩

end RefDiff

namespace GitDiff

/-- The contents of the `Line` rows of a pane, in order. -/
def lineContents (rows : List DiffRow) : List String :=
  rows.filterMap fun r =>
    match r with
    | DiffRow.Line l => some l.content
    | DiffRow.Collapse _ _ _ => none

end GitDiff

/-- Claim C1 (code bug): coverage fails on a valid input.  Deleting the
last line of `"a\nb\n"` yields the git hunk `@@ -2,1 +1,0 @@` (one
removed line, `new_start` denoting the line before the deletion).  On
this input `build_full_file_side_by_side` emits an old pane whose `Line`
rows concatenate to `["b"]`, dropping the unchanged first line `"a"` of
`before_content`, instead of reproducing `["a", "b"]`. -/
theorem coverage_fails_on_deletion_hunk :
    GitDiff.lineContents
        (GitDiff.build_full_file_side_by_side (some "a\nb\n") (some "a\n")
          [⟨2, 1, 1, 0, "@@ -2,1 +1,0 @@",
            [⟨"removed", some 2, none, "b"⟩]⟩]).1 = ["b"] ∧
      rustLines "a\nb\n" = ["a", "b"] := by
  decide

/-- Claim C7: for an absent before side and after content `"a\nb\n"`
with no hunk supplied, the engine produces exactly one synthesized hunk
whose lines are `added` with line numbers 1 and 2, a new pane equal to
`[Line "a", Line "b"]`, and an old pane equal to
`[Collapse 2 1 0]`; this holds for the untracked-file path of `diff.rs`
and for the hunk synthesizer of `diff/mod.rs`. -/
theorem untracked_pure_addition_end_to_end :
    GitDiff.get_untracked_file_diff "f" "a\nb\n" =
      { path := "f"
        old_path := none
        status := "untracked"
        hunks := [⟨0, 0, 1, 2, "@@ -0,0 +1,2 @@",
          [⟨"added", none, some 1, "a"⟩, ⟨"added", none, some 2, "b"⟩]⟩]
        is_binary := false
        old_content := [GitDiff.DiffRow.Collapse 2 1 0]
        new_content := [GitDiff.DiffRow.Line ⟨"added", none, some 1, "a"⟩,
          GitDiff.DiffRow.Line ⟨"added", none, some 2, "b"⟩] } ∧
    RefDiff.synthesize_hunks none (some "a\nb\n") =
      [⟨0, 0, 1, 2, "@@ -0,0 +1,2 @@",
        [⟨"added", none, some 1, "a"⟩, ⟨"added", none, some 2, "b"⟩]⟩] := by
  decide

/-- Claim C10: for an untracked file with zero-length content,
`get_untracked_file_diff` returns empty row vectors for both panes (no
collapse indicator) but a hunk vector of length 1 holding a degenerate
hunk with `old_lines = 0`, `new_lines = 0` and no lines. -/
theorem untracked_empty_file_degenerate_hunk :
    GitDiff.get_untracked_file_diff "f" "" =
      { path := "f"
        old_path := none
        status := "untracked"
        hunks := [⟨0, 0, 1, 0, "@@ -0,0 +1,0 @@", []⟩]
        is_binary := false
        old_content := []
        new_content := [] } := by
  decide

/-- Claim C8: `build_full_file_side_by_side` is a pure function of its
three arguments: two invocations on equal arguments return identical
row pairs. -/
theorem build_full_file_deterministic
    (o₁ o₂ n₁ n₂ : Option String) (h₁ h₂ : List GitDiff.DiffHunk)
    (ho : o₁ = o₂) (hn : n₁ = n₂) (hh : h₁ = h₂) :
    GitDiff.build_full_file_side_by_side o₁ n₁ h₁ =
      GitDiff.build_full_file_side_by_side o₂ n₂ h₂ := by
  subst ho; subst hn; subst hh; rfl

/-- Witness for claim C8 at a concrete input. -/
theorem build_full_file_deterministic_witness :
    GitDiff.build_full_file_side_by_side (some "a\n") (some "b\n") [] =
      GitDiff.build_full_file_side_by_side (some "a\n") (some "b\n") [] :=
  build_full_file_deterministic (some "a\n") (some "a\n") (some "b\n")
    (some "b\n") [] [] rfl rfl rfl

namespace GitDiff

/-- Inserting at the length of the left part of an append splices the
element between the two parts. -/
theorem insertIdx_append_left_length (l ys : List DiffRow) (x : DiffRow) :
    List.insertIdx l.length x (l ++ ys) = l ++ x :: ys := by
  induction l with
  | nil => simp
  | cons a t ih => simpa [List.insertIdx_succ_cons] using ih

/-- Closed form of `flush_pending_changes`: the removed lines are
appended to the old pane and the added lines to the new pane, a collapse
indicator for the removed run goes into the new pane immediately before
the added rows, and a collapse indicator for the added run goes into the
old pane immediately after the removed rows, each carrying the other
pane's insertion index. -/
theorem flush_pending_changes_eq (oc nc : List DiffRow)
    (pr pa : List DiffLine) :
    flush_pending_changes oc nc pr pa =
      (oc ++ pr.map DiffRow.Line ++
        (if pa = [] then [] else
          [DiffRow.Collapse pa.length (((pa.head?).bind (·.new_lineno)).getD 0)
            (nc.length + if pr = [] then 0 else 1)]),
       nc ++
        (if pr = [] then [] else
          [DiffRow.Collapse pr.length (((pr.head?).bind (·.old_lineno)).getD 0)
            oc.length]) ++
        pa.map DiffRow.Line) := by
  unfold flush_pending_changes
  by_cases hpr : pr = [] <;> by_cases hpa : pa = [] <;>
    simp [hpr, hpa, List.isEmpty_iff, List.length_pos,
      insertIdx_append_left_length]
  rw [show oc.length + pr.length = (oc ++ pr.map DiffRow.Line).length by simp,
    List.insertIdx_length_self, List.append_assoc]

/-- Sum of `count` over all `Collapse` rows of a pane. -/
def collapseTotal (rows : List DiffRow) : Nat :=
  (rows.map fun r =>
    match r with
    | DiffRow.Collapse c _ _ => c
    | DiffRow.Line _ => 0).sum

/-- Number of `removed` lines in a hunk body. -/
def removedCount (lines : List DiffLine) : Nat :=
  lines.countP fun l => l.line_type == "removed"

/-- Number of `added` lines in a hunk body. -/
def addedCount (lines : List DiffLine) : Nat :=
  lines.countP fun l => l.line_type == "added"

/-- Total number of `removed` lines across a hunk list. -/
def removedTotal (hunks : List DiffHunk) : Nat :=
  (hunks.map fun h => removedCount h.lines).sum

/-- Total number of `added` lines across a hunk list. -/
def addedTotal (hunks : List DiffHunk) : Nat :=
  (hunks.map fun h => addedCount h.lines).sum

theorem collapseTotal_append (a b : List DiffRow) :
    collapseTotal (a ++ b) = collapseTotal a + collapseTotal b := by
  simp [collapseTotal]

theorem collapseTotal_nil : collapseTotal [] = 0 := rfl

theorem collapseTotal_cons_line (l : DiffLine) (rows : List DiffRow) :
    collapseTotal (DiffRow.Line l :: rows) = collapseTotal rows := by
  simp [collapseTotal]

theorem collapseTotal_singleton_collapse (c s i : Nat) :
    collapseTotal [DiffRow.Collapse c s i] = c := by
  simp [collapseTotal]

theorem collapseTotal_cons_collapse (c s i : Nat) (rows : List DiffRow) :
    collapseTotal (DiffRow.Collapse c s i :: rows) = c + collapseTotal rows := by
  simp [collapseTotal]

theorem collapseTotal_map_line (xs : List DiffLine) :
    collapseTotal (xs.map DiffRow.Line) = 0 := by
  induction xs with
  | nil => rfl
  | cons a t ih => simpa [collapseTotal] using ih

theorem collapseTotal_flush_new (oc nc : List DiffRow) (pr pa : List DiffLine) :
    collapseTotal (flush_pending_changes oc nc pr pa).2 =
      collapseTotal nc + pr.length := by
  rw [flush_pending_changes_eq]
  by_cases hpr : pr = [] <;>
    simp [hpr, collapseTotal_append, collapseTotal_map_line, collapseTotal_nil,
      collapseTotal_singleton_collapse, collapseTotal_cons_collapse]

theorem collapseTotal_flush_old (oc nc : List DiffRow) (pr pa : List DiffLine) :
    collapseTotal (flush_pending_changes oc nc pr pa).1 =
      collapseTotal oc + pa.length := by
  rw [flush_pending_changes_eq]
  by_cases hpa : pa = [] <;>
    simp [hpa, collapseTotal_append, collapseTotal_map_line, collapseTotal_nil,
      collapseTotal_singleton_collapse, collapseTotal_cons_collapse]

theorem collapseTotal_gapRows (old_lines : List String) (hos hns : Nat) :
    ∀ fuel oi ni,
      collapseTotal (gapRows old_lines hos hns fuel oi ni).1 = 0 ∧
      collapseTotal (gapRows old_lines hos hns fuel oi ni).2.1 = 0 := by
  intro fuel
  induction fuel with
  | zero => intro oi ni; simp [gapRows, collapseTotal_nil]
  | succ n ih =>
    intro oi ni
    by_cases h : oi + 1 < hos ∧ ni + 1 < hns <;>
      simp [gapRows, h, collapseTotal_nil, collapseTotal_cons_line,
        (ih (oi + 1) (ni + 1)).1, (ih (oi + 1) (ni + 1)).2]

theorem collapseTotal_tailBoth (old_lines new_lines : List String) :
    ∀ fuel oi ni,
      collapseTotal (tailBoth old_lines new_lines fuel oi ni).1 = 0 ∧
      collapseTotal (tailBoth old_lines new_lines fuel oi ni).2.1 = 0 := by
  intro fuel
  induction fuel with
  | zero => intro oi ni; simp [tailBoth, collapseTotal_nil]
  | succ n ih =>
    intro oi ni
    by_cases h : oi < old_lines.length ∧ ni < new_lines.length <;>
      simp [tailBoth, h, collapseTotal_nil, collapseTotal_cons_line,
        (ih (oi + 1) (ni + 1)).1, (ih (oi + 1) (ni + 1)).2]

theorem collapseTotal_tailOld (old_lines : List String) :
    ∀ fuel oi, collapseTotal (tailOld old_lines fuel oi) = 0 := by
  intro fuel
  induction fuel with
  | zero => intro oi; simp [tailOld, collapseTotal_nil]
  | succ n ih =>
    intro oi
    by_cases h : oi < old_lines.length <;>
      simp [tailOld, h, collapseTotal_nil, collapseTotal_cons_line, ih (oi + 1)]

theorem collapseTotal_tailNew (new_lines : List String) :
    ∀ fuel ni, collapseTotal (tailNew new_lines fuel ni) = 0 := by
  intro fuel
  induction fuel with
  | zero => intro ni; simp [tailNew, collapseTotal_nil]
  | succ n ih =>
    intro ni
    by_cases h : ni < new_lines.length <;>
      simp [tailNew, h, collapseTotal_nil, collapseTotal_cons_line, ih (ni + 1)]

theorem removedCount_cons (l : DiffLine) (rest : List DiffLine) :
    removedCount (l :: rest) =
      removedCount rest + (if l.line_type == "removed" then 1 else 0) :=
  List.countP_cons _ _ _

theorem addedCount_cons (l : DiffLine) (rest : List DiffLine) :
    addedCount (l :: rest) =
      addedCount rest + (if l.line_type == "added" then 1 else 0) :=
  List.countP_cons _ _ _

/-- One hunk-line step accounts exactly one removed line in the new
pane's collapse-plus-buffer total, and one added line in the old
pane's. -/
theorem hunkLineStep_collapse (st : BuildState) (pr pa : List DiffLine)
    (line : DiffLine) :
    collapseTotal (hunkLineStep st pr pa line).1.new_content +
        (hunkLineStep st pr pa line).2.1.length =
      collapseTotal st.new_content + pr.length +
        (if line.line_type == "removed" then 1 else 0) ∧
    collapseTotal (hunkLineStep st pr pa line).1.old_content +
        (hunkLineStep st pr pa line).2.2.length =
      collapseTotal st.old_content + pa.length +
        (if line.line_type == "added" then 1 else 0) := by
  by_cases hc : line.line_type = "context"
  · simp [hunkLineStep, hc, collapseTotal_append, collapseTotal_cons_line,
      collapseTotal_nil, collapseTotal_flush_new, collapseTotal_flush_old]
  · by_cases hr : line.line_type = "removed"
    · by_cases hpa : pa.isEmpty <;>
        simp [hunkLineStep, hc, hr, hpa, collapseTotal_flush_new,
          collapseTotal_flush_old, List.isEmpty_iff] <;> omega
    · by_cases ha : line.line_type = "added"
      · simp [hunkLineStep, hc, hr, ha] <;> omega
      · simp [hunkLineStep, hc, hr, ha]

/-- The hunk-line loop accounts every removed line of the processed
lines in the new pane's collapse-plus-buffer total, and every added line
in the old pane's. -/
theorem processLines_collapse (lines : List DiffLine) :
    ∀ (st : BuildState) (pr pa : List DiffLine),
      collapseTotal (processLines lines st pr pa).1.new_content +
          (processLines lines st pr pa).2.1.length =
        collapseTotal st.new_content + pr.length + removedCount lines ∧
      collapseTotal (processLines lines st pr pa).1.old_content +
          (processLines lines st pr pa).2.2.length =
        collapseTotal st.old_content + pa.length + addedCount lines := by
  induction lines with
  | nil =>
    intro st pr pa
    simp [processLines, removedCount, addedCount]
  | cons line rest ih =>
    intro st pr pa
    simp only [processLines]
    obtain ⟨h1, h2⟩ := hunkLineStep_collapse st pr pa line
    obtain ⟨g1, g2⟩ := ih (hunkLineStep st pr pa line).1
      (hunkLineStep st pr pa line).2.1 (hunkLineStep st pr pa line).2.2
    refine ⟨?_, ?_⟩
    · rw [g1, removedCount_cons]; omega
    · rw [g2, addedCount_cons]; omega

/-- Processing one hunk adds exactly its removed-line count to the new
pane's collapse total and its added-line count to the old pane's. -/
theorem processHunk_collapse (ol : List String) (st : BuildState)
    (hk : DiffHunk) :
    collapseTotal (processHunk ol st hk).new_content =
      collapseTotal st.new_content + removedCount hk.lines ∧
    collapseTotal (processHunk ol st hk).old_content =
      collapseTotal st.old_content + addedCount hk.lines := by
  obtain ⟨p1, p2⟩ := processLines_collapse hk.lines
    ⟨st.old_content ++
        (gapRows ol hk.old_start hk.new_start hk.old_start st.old_idx st.new_idx).1,
      st.new_content ++
        (gapRows ol hk.old_start hk.new_start hk.old_start st.old_idx st.new_idx).2.1,
      (gapRows ol hk.old_start hk.new_start hk.old_start st.old_idx st.new_idx).2.2.1,
      (gapRows ol hk.old_start hk.new_start hk.old_start st.old_idx st.new_idx).2.2.2⟩
    [] []
  obtain ⟨gp1, gp2⟩ := collapseTotal_gapRows ol hk.old_start hk.new_start
    hk.old_start st.old_idx st.new_idx
  simp only [processHunk]
  constructor
  · rw [collapseTotal_flush_new]
    simp only [List.length_nil] at p1
    rw [p1]
    simp [collapseTotal_append, gp2]
  · rw [collapseTotal_flush_old]
    simp only [List.length_nil] at p2
    rw [p2]
    simp [collapseTotal_append, gp1]

/-- The hunk loop accounts all removed/added lines across the hunks. -/
theorem foldl_processHunk_collapse (ol : List String) :
    ∀ (hunks : List DiffHunk) (st : BuildState),
      collapseTotal ((hunks.foldl (processHunk ol) st).new_content) =
        collapseTotal st.new_content + removedTotal hunks ∧
      collapseTotal ((hunks.foldl (processHunk ol) st).old_content) =
        collapseTotal st.old_content + addedTotal hunks := by
  intro hunks
  induction hunks with
  | nil => intro st; simp [removedTotal, addedTotal]
  | cons hk rest ih =>
    intro st
    obtain ⟨h1, h2⟩ := processHunk_collapse ol st hk
    obtain ⟨g1, g2⟩ := ih (processHunk ol st hk)
    refine ⟨?_, ?_⟩
    · rw [List.foldl_cons, g1, h1]
      simp [removedTotal]
      omega
    · rw [List.foldl_cons, g2, h2]
      simp [addedTotal]
      omega

end GitDiff

/-- Claim C4: in the panes produced by `build_full_file_side_by_side`,
the sum of `count` over all `Collapse` rows of the new pane equals the
total number of `removed` hunk lines, and the sum over the old pane's
`Collapse` rows equals the total number of `added` hunk lines. -/
theorem collapse_accounting (old_file_content new_file_content : Option String)
    (hunks : List GitDiff.DiffHunk) :
    GitDiff.collapseTotal
        (GitDiff.build_full_file_side_by_side old_file_content new_file_content
          hunks).2 =
      GitDiff.removedTotal hunks ∧
    GitDiff.collapseTotal
        (GitDiff.build_full_file_side_by_side old_file_content new_file_content
          hunks).1 =
      GitDiff.addedTotal hunks := by
  simp only [GitDiff.build_full_file_side_by_side]
  obtain ⟨f1, f2⟩ := GitDiff.foldl_processHunk_collapse
    ((old_file_content.map rustLines).getD []) hunks ⟨[], [], 0, 0⟩
  obtain ⟨t1, t2⟩ := GitDiff.collapseTotal_tailBoth
    ((old_file_content.map rustLines).getD [])
    ((new_file_content.map rustLines).getD [])
    ((old_file_content.map rustLines).getD []).length
    (hunks.foldl (GitDiff.processHunk ((old_file_content.map rustLines).getD []))
      ⟨[], [], 0, 0⟩).old_idx
    (hunks.foldl (GitDiff.processHunk ((old_file_content.map rustLines).getD []))
      ⟨[], [], 0, 0⟩).new_idx
  constructor
  · rw [GitDiff.collapseTotal_append, GitDiff.collapseTotal_append, f1, t2,
      GitDiff.collapseTotal_tailNew]
    simp [GitDiff.collapseTotal_nil]
  · rw [GitDiff.collapseTotal_append, GitDiff.collapseTotal_append, f2, t1,
      GitDiff.collapseTotal_tailOld]
    simp [GitDiff.collapseTotal_nil]

/-- Claim C5: when a flush occurs with a non-empty removed buffer,
exactly one `Collapse` carrying the removed count, the first removed
line's old number and the old-pane index of the first removed row is
placed in the new pane immediately before the added rows; symmetrically,
when the added buffer is non-empty, exactly one `Collapse` carrying the
added count, the first added line's new number and the new-pane index of
the corresponding position is placed in the old pane immediately after
the removed rows. -/
theorem flush_collapse_placement (oc nc : List GitDiff.DiffRow)
    (pr pa : List GitDiff.DiffLine) :
    (pr ≠ [] →
      GitDiff.flush_pending_changes oc nc pr pa =
        (oc ++ pr.map GitDiff.DiffRow.Line ++
          (if pa = [] then [] else
            [GitDiff.DiffRow.Collapse pa.length
              (((pa.head?).bind (·.new_lineno)).getD 0) (nc.length + 1)]),
         nc ++
          GitDiff.DiffRow.Collapse pr.length
            (((pr.head?).bind (·.old_lineno)).getD 0) oc.length ::
          pa.map GitDiff.DiffRow.Line)) ∧
    (pa ≠ [] →
      GitDiff.flush_pending_changes oc nc pr pa =
        (oc ++ pr.map GitDiff.DiffRow.Line ++
          [GitDiff.DiffRow.Collapse pa.length
            (((pa.head?).bind (·.new_lineno)).getD 0)
            (nc.length + if pr = [] then 0 else 1)],
         nc ++
          (if pr = [] then [] else
            [GitDiff.DiffRow.Collapse pr.length
              (((pr.head?).bind (·.old_lineno)).getD 0) oc.length]) ++
          pa.map GitDiff.DiffRow.Line)) := by
  constructor
  · intro hpr
    rw [GitDiff.flush_pending_changes_eq]
    simp [hpr]
  · intro hpa
    rw [GitDiff.flush_pending_changes_eq]
    simp [hpa]

/-- Witness for claim C5: a flush with one removed and one added line
buffered places `Collapse 1 5 0` in the new pane before the added row
and `Collapse 1 7 1` in the old pane after the removed row. -/
theorem flush_collapse_placement_witness :
    GitDiff.flush_pending_changes [] [] [⟨"removed", some 5, none, "r"⟩]
        [⟨"added", none, some 7, "x"⟩] =
      ([GitDiff.DiffRow.Line ⟨"removed", some 5, none, "r"⟩,
        GitDiff.DiffRow.Collapse 1 7 1],
       [GitDiff.DiffRow.Collapse 1 5 0,
        GitDiff.DiffRow.Line ⟨"added", none, some 7, "x"⟩]) := by
  have h := (flush_collapse_placement [] [] [⟨"removed", some 5, none, "r"⟩]
    [⟨"added", none, some 7, "x"⟩]).1 (by decide)
  simpa using h

namespace GitDiff

/-- An old-pane row carries no new-file line number. -/
def rowOldOk : DiffRow → Bool
  | DiffRow.Line l => l.new_lineno.isNone
  | DiffRow.Collapse _ _ _ => true

/-- A new-pane row carries no old-file line number. -/
def rowNewOk : DiffRow → Bool
  | DiffRow.Line l => l.old_lineno.isNone
  | DiffRow.Collapse _ _ _ => true

/-- The `HunkLine` invariant of the data model: `removed` lines carry no
new line number and `added` lines carry no old line number. -/
def hunkLineOk (l : DiffLine) : Bool :=
  (if l.line_type = "removed" then l.new_lineno.isNone else true) &&
  (if l.line_type = "added" then l.old_lineno.isNone else true)

theorem flush_rowOk (oc nc : List DiffRow) (pr pa : List DiffLine)
    (hoc : oc.all rowOldOk = true) (hnc : nc.all rowNewOk = true)
    (hpr : pr.all (fun l => l.new_lineno.isNone) = true)
    (hpa : pa.all (fun l => l.old_lineno.isNone) = true) :
    (flush_pending_changes oc nc pr pa).1.all rowOldOk = true ∧
    (flush_pending_changes oc nc pr pa).2.all rowNewOk = true := by
  rw [flush_pending_changes_eq]
  constructor
  · by_cases h : pa = [] <;> simp_all [List.all_eq_true, rowOldOk]
  · by_cases h : pr = [] <;> simp_all [List.all_eq_true, rowNewOk]

theorem gapRows_rowOk (old_lines : List String) (hos hns : Nat) :
    ∀ fuel oi ni,
      (gapRows old_lines hos hns fuel oi ni).1.all rowOldOk = true ∧
      (gapRows old_lines hos hns fuel oi ni).2.1.all rowNewOk = true := by
  intro fuel
  induction fuel with
  | zero => intro oi ni; simp [gapRows]
  | succ n ih =>
    intro oi ni
    by_cases h : oi + 1 < hos ∧ ni + 1 < hns <;>
      simp [gapRows, h, rowOldOk, rowNewOk, (ih (oi + 1) (ni + 1)).1,
        (ih (oi + 1) (ni + 1)).2]

theorem tailBoth_rowOk (old_lines new_lines : List String) :
    ∀ fuel oi ni,
      (tailBoth old_lines new_lines fuel oi ni).1.all rowOldOk = true ∧
      (tailBoth old_lines new_lines fuel oi ni).2.1.all rowNewOk = true := by
  intro fuel
  induction fuel with
  | zero => intro oi ni; simp [tailBoth]
  | succ n ih =>
    intro oi ni
    by_cases h : oi < old_lines.length ∧ ni < new_lines.length <;>
      simp [tailBoth, h, rowOldOk, rowNewOk, (ih (oi + 1) (ni + 1)).1,
        (ih (oi + 1) (ni + 1)).2]

theorem tailOld_rowOk (old_lines : List String) :
    ∀ fuel oi, (tailOld old_lines fuel oi).all rowOldOk = true := by
  intro fuel
  induction fuel with
  | zero => intro oi; simp [tailOld]
  | succ n ih =>
    intro oi
    by_cases h : oi < old_lines.length <;>
      simp [tailOld, h, rowOldOk, ih (oi + 1)]

theorem tailNew_rowOk (new_lines : List String) :
    ∀ fuel ni, (tailNew new_lines fuel ni).all rowNewOk = true := by
  intro fuel
  induction fuel with
  | zero => intro ni; simp [tailNew]
  | succ n ih =>
    intro ni
    by_cases h : ni < new_lines.length <;>
      simp [tailNew, h, rowNewOk, ih (ni + 1)]

theorem hunkLineStep_rowOk (st : BuildState) (pr pa : List DiffLine)
    (line : DiffLine) (hline : hunkLineOk line = true)
    (hoc : st.old_content.all rowOldOk = true)
    (hnc : st.new_content.all rowNewOk = true)
    (hpr : pr.all (fun l => l.new_lineno.isNone) = true)
    (hpa : pa.all (fun l => l.old_lineno.isNone) = true) :
    (hunkLineStep st pr pa line).1.old_content.all rowOldOk = true ∧
    (hunkLineStep st pr pa line).1.new_content.all rowNewOk = true ∧
    (hunkLineStep st pr pa line).2.1.all (fun l => l.new_lineno.isNone) = true ∧
    (hunkLineStep st pr pa line).2.2.all (fun l => l.old_lineno.isNone) = true := by
  obtain ⟨f1, f2⟩ := flush_rowOk st.old_content st.new_content pr pa hoc hnc hpr hpa
  by_cases hc : line.line_type = "context"
  · simp [hunkLineStep, hc, rowOldOk, rowNewOk, f1, f2]
  · by_cases hr : line.line_type = "removed"
    · have hnn : line.new_lineno.isNone = true := by
        simpa [hunkLineOk, hr, hc] using hline
      by_cases hpe : pa.isEmpty <;>
        simp_all [hunkLineStep, hc, hr, List.all_append]
    · by_cases ha : line.line_type = "added"
      · have hon : line.old_lineno.isNone = true := by
          simpa [hunkLineOk, ha, hc, hr] using hline
        simp_all [hunkLineStep, hc, hr, ha, List.all_append]
      · simp_all [hunkLineStep, hc, hr, ha]

theorem processLines_rowOk (lines : List DiffLine) :
    ∀ (st : BuildState) (pr pa : List DiffLine),
      lines.all hunkLineOk = true →
      st.old_content.all rowOldOk = true →
      st.new_content.all rowNewOk = true →
      pr.all (fun l => l.new_lineno.isNone) = true →
      pa.all (fun l => l.old_lineno.isNone) = true →
      (processLines lines st pr pa).1.old_content.all rowOldOk = true ∧
      (processLines lines st pr pa).1.new_content.all rowNewOk = true ∧
      (processLines lines st pr pa).2.1.all (fun l => l.new_lineno.isNone) = true ∧
      (processLines lines st pr pa).2.2.all (fun l => l.old_lineno.isNone) = true := by
  induction lines with
  | nil =>
    intro st pr pa _ hoc hnc hpr hpa
    exact ⟨hoc, hnc, hpr, hpa⟩
  | cons line rest ih =>
    intro st pr pa hall hoc hnc hpr hpa
    rw [List.all_cons, Bool.and_eq_true] at hall
    obtain ⟨s1, s2, s3, s4⟩ := hunkLineStep_rowOk st pr pa line hall.1 hoc hnc hpr hpa
    simpa only [processLines] using
      ih (hunkLineStep st pr pa line).1 (hunkLineStep st pr pa line).2.1
        (hunkLineStep st pr pa line).2.2 hall.2 s1 s2 s3 s4

theorem processHunk_rowOk (ol : List String) (st : BuildState) (hk : DiffHunk)
    (hall : hk.lines.all hunkLineOk = true)
    (hoc : st.old_content.all rowOldOk = true)
    (hnc : st.new_content.all rowNewOk = true) :
    (processHunk ol st hk).old_content.all rowOldOk = true ∧
    (processHunk ol st hk).new_content.all rowNewOk = true := by
  obtain ⟨g1, g2⟩ := gapRows_rowOk ol hk.old_start hk.new_start hk.old_start
    st.old_idx st.new_idx
  obtain ⟨p1, p2, p3, p4⟩ := processLines_rowOk hk.lines
    ⟨st.old_content ++
        (gapRows ol hk.old_start hk.new_start hk.old_start st.old_idx st.new_idx).1,
      st.new_content ++
        (gapRows ol hk.old_start hk.new_start hk.old_start st.old_idx st.new_idx).2.1,
      (gapRows ol hk.old_start hk.new_start hk.old_start st.old_idx st.new_idx).2.2.1,
      (gapRows ol hk.old_start hk.new_start hk.old_start st.old_idx st.new_idx).2.2.2⟩
    [] [] hall (by simp [List.all_append, hoc, g1]) (by simp [List.all_append, hnc, g2])
    (by simp) (by simp)
  obtain ⟨f1, f2⟩ := flush_rowOk _ _ _ _ p1 p2 p3 p4
  simp only [processHunk]
  exact ⟨f1, f2⟩

theorem foldl_processHunk_rowOk (ol : List String) :
    ∀ (hunks : List DiffHunk) (st : BuildState),
      hunks.all (fun hk => hk.lines.all hunkLineOk) = true →
      st.old_content.all rowOldOk = true →
      st.new_content.all rowNewOk = true →
      ((hunks.foldl (processHunk ol) st).old_content.all rowOldOk = true ∧
       (hunks.foldl (processHunk ol) st).new_content.all rowNewOk = true) := by
  intro hunks
  induction hunks with
  | nil => intro st _ hoc hnc; exact ⟨hoc, hnc⟩
  | cons hk rest ih =>
    intro st hall hoc hnc
    rw [List.all_cons, Bool.and_eq_true] at hall
    obtain ⟨h1, h2⟩ := processHunk_rowOk ol st hk hall.1 hoc hnc
    simpa only [List.foldl_cons] using ih (processHunk ol st hk) hall.2 h1 h2

end GitDiff

/-- Claim C9: under the `HunkLine` invariant on the input hunks (removed
lines carry no new line number, added lines carry no old line number),
every `Line` row that `build_full_file_side_by_side` emits into the old
pane has `new_lineno = none`, and every `Line` row it emits into the new
pane has `old_lineno = none`. -/
theorem pane_lineno_invariant (old_file_content new_file_content : Option String)
    (hunks : List GitDiff.DiffHunk)
    (hall : hunks.all (fun hk => hk.lines.all GitDiff.hunkLineOk) = true) :
    (GitDiff.build_full_file_side_by_side old_file_content new_file_content
        hunks).1.all GitDiff.rowOldOk = true ∧
    (GitDiff.build_full_file_side_by_side old_file_content new_file_content
        hunks).2.all GitDiff.rowNewOk = true := by
  obtain ⟨f1, f2⟩ := GitDiff.foldl_processHunk_rowOk
    ((old_file_content.map rustLines).getD []) hunks ⟨[], [], 0, 0⟩ hall
    (by simp) (by simp)
  obtain ⟨t1, t2⟩ := GitDiff.tailBoth_rowOk
    ((old_file_content.map rustLines).getD [])
    ((new_file_content.map rustLines).getD [])
    ((old_file_content.map rustLines).getD []).length
    (hunks.foldl (GitDiff.processHunk ((old_file_content.map rustLines).getD []))
      ⟨[], [], 0, 0⟩).old_idx
    (hunks.foldl (GitDiff.processHunk ((old_file_content.map rustLines).getD []))
      ⟨[], [], 0, 0⟩).new_idx
  simp only [GitDiff.build_full_file_side_by_side]
  constructor
  · simp [List.all_append, f1, t1, GitDiff.tailOld_rowOk]
  · simp [List.all_append, f2, t2, GitDiff.tailNew_rowOk]

/-- Witness for claim C9 at a concrete replacement hunk. -/
theorem pane_lineno_invariant_witness :
    ([⟨2, 1, 2, 1, "@@ -2,1 +2,1 @@",
        [⟨"removed", some 2, none, "b"⟩,
         ⟨"added", none, some 2, "X"⟩]⟩] : List GitDiff.DiffHunk).all
        (fun hk => hk.lines.all GitDiff.hunkLineOk) = true ∧
    (GitDiff.build_full_file_side_by_side (some "a\nb\nc\n") (some "a\nX\nc\n")
        [⟨2, 1, 2, 1, "@@ -2,1 +2,1 @@",
          [⟨"removed", some 2, none, "b"⟩,
           ⟨"added", none, some 2, "X"⟩]⟩]).1.all GitDiff.rowOldOk = true ∧
    (GitDiff.build_full_file_side_by_side (some "a\nb\nc\n") (some "a\nX\nc\n")
        [⟨2, 1, 2, 1, "@@ -2,1 +2,1 @@",
          [⟨"removed", some 2, none, "b"⟩,
           ⟨"added", none, some 2, "X"⟩]⟩]).2.all GitDiff.rowNewOk = true :=
  ⟨by decide,
   pane_lineno_invariant (some "a\nb\nc\n") (some "a\nX\nc\n")
     [⟨2, 1, 2, 1, "@@ -2,1 +2,1 @@",
       [⟨"removed", some 2, none, "b"⟩,
        ⟨"added", none, some 2, "X"⟩]⟩] (by decide)⟩

namespace RefDiff

/-- The hunk lines carry consecutive new-file line numbers starting at
`k`. -/
def numberedNewFrom (k : Nat) : List HunkLine → Bool
  | [] => true
  | l :: t => (l.new_lineno == some k) && numberedNewFrom (k + 1) t

/-- The hunk lines carry consecutive old-file line numbers starting at
`k`. -/
def numberedOldFrom (k : Nat) : List HunkLine → Bool
  | [] => true
  | l :: t => (l.old_lineno == some k) && numberedOldFrom (k + 1) t

theorem addedLines_content (l : List String) :
    ∀ k, (((l.enumFrom k).map fun p =>
        (⟨"added", none, some (p.1 + 1), p.2⟩ : HunkLine)).map
      fun x => x.content) = l := by
  induction l with
  | nil => intro k; rfl
  | cons a t ih => intro k; simpa [List.enumFrom] using ih (k + 1)

theorem removedLines_content (l : List String) :
    ∀ k, (((l.enumFrom k).map fun p =>
        (⟨"removed", some (p.1 + 1), none, p.2⟩ : HunkLine)).map
      fun x => x.content) = l := by
  induction l with
  | nil => intro k; rfl
  | cons a t ih => intro k; simpa [List.enumFrom] using ih (k + 1)

theorem addedLines_numbered (l : List String) :
    ∀ k, numberedNewFrom (k + 1) ((l.enumFrom k).map fun p =>
      (⟨"added", none, some (p.1 + 1), p.2⟩ : HunkLine)) = true := by
  induction l with
  | nil => intro k; rfl
  | cons a t ih =>
    intro k
    simpa [List.enumFrom, numberedNewFrom] using ih (k + 1)

theorem removedLines_numbered (l : List String) :
    ∀ k, numberedOldFrom (k + 1) ((l.enumFrom k).map fun p =>
      (⟨"removed", some (p.1 + 1), none, p.2⟩ : HunkLine)) = true := by
  induction l with
  | nil => intro k; rfl
  | cons a t ih =>
    intro k
    simpa [List.enumFrom, numberedOldFrom] using ih (k + 1)

end RefDiff

/-- Claim C3: for an input with exactly one side present,
`synthesize_hunks` returns a list of length 0 or 1, empty exactly when
the present content splits into zero lines; otherwise the single hunk
covers the whole present side, all its lines are `added` (before absent)
or `removed` (after absent), and each line carries a 1-indexed line
number equal to its position in the split content. -/
theorem synthesize_hunks_contract (c : String) :
    ((RefDiff.synthesize_hunks none (some c)).length =
        if rustLines c = [] then 0 else 1) ∧
    ((RefDiff.synthesize_hunks none (some c)).all fun hk =>
        hk.old_start == 0 && hk.old_lines == 0 && hk.new_start == 1 &&
        hk.new_lines == (rustLines c).length &&
        (hk.lines.map fun l => l.content) == rustLines c &&
        hk.lines.all (fun l => l.line_type == "added" && l.old_lineno == none) &&
        RefDiff.numberedNewFrom 1 hk.lines) = true ∧
    ((RefDiff.synthesize_hunks (some c) none).length =
        if rustLines c = [] then 0 else 1) ∧
    ((RefDiff.synthesize_hunks (some c) none).all fun hk =>
        hk.old_start == 1 && hk.old_lines == (rustLines c).length &&
        hk.new_start == 0 && hk.new_lines == 0 &&
        (hk.lines.map fun l => l.content) == rustLines c &&
        hk.lines.all (fun l => l.line_type == "removed" && l.new_lineno == none) &&
        RefDiff.numberedOldFrom 1 hk.lines) = true := by
  have hadd := RefDiff.addedLines_content (rustLines c) 0
  have hrem := RefDiff.removedLines_content (rustLines c) 0
  have hnum := RefDiff.addedLines_numbered (rustLines c) 0
  have honum := RefDiff.removedLines_numbered (rustLines c) 0
  by_cases h : rustLines c = []
  · simp [RefDiff.synthesize_hunks, h, List.enum]
  · have hne : (rustLines c).length ≠ 0 := by
      simpa [List.length_eq_zero] using h
    refine ⟨?_, ?_, ?_, ?_⟩ <;>
      simp [RefDiff.synthesize_hunks, h, hne, List.enum, hadd, hrem, hnum, honum,
        List.all_map, List.all_eq_true]
    all_goals
      intro x i s _ hx
      subst hx
      exact ⟨rfl, rfl⟩

namespace RefDiff

/-- The data-model precondition on hunks, relative to cursor positions:
hunks are ordered and non-overlapping in both coordinate spaces (each
hunk starts no earlier than the previous hunk's end) and stay within the
two sides' line counts. -/
def hunksChain (old_len new_len : Nat) : Nat → Nat → List DiffHunk → Bool
  | old_pos, new_pos, [] =>
    decide (old_pos ≤ old_len) && decide (new_pos ≤ new_len)
  | old_pos, new_pos, hk :: rest =>
    decide (old_pos ≤ hk.old_start) && decide (new_pos ≤ hk.new_start) &&
      hunksChain old_len new_len (hk.old_start + hk.old_lines)
        (hk.new_start + hk.new_lines) rest

/-- The spans tile the interval from `pos` to `stop`: consecutive spans
are contiguous, each is non-reversed, the first starts at `pos` and the
last ends at `stop` (an empty list requires `pos = stop`). -/
def tilesFromTo (pos stop : Nat) : List Span → Bool
  | [] => pos == stop
  | s :: t => (s.start == pos) && decide (pos ≤ s.stop) && tilesFromTo s.stop stop t

theorem tilesFromTo_append (xs : List Span) :
    ∀ (a b c : Nat) (ys : List Span), tilesFromTo a b xs = true →
      tilesFromTo b c ys = true → tilesFromTo a c (xs ++ ys) = true := by
  induction xs with
  | nil =>
    intro a b c ys hx hy
    have : a = b := by simpa [tilesFromTo] using hx
    simpa [this] using hy
  | cons s t ih =>
    intro a b c ys hx hy
    rw [tilesFromTo, Bool.and_eq_true, Bool.and_eq_true] at hx
    simp only [List.cons_append, tilesFromTo, Bool.and_eq_true]
    exact ⟨⟨hx.1.1, hx.1.2⟩, ih s.stop b c ys hx.2 hy⟩

theorem align_loop_tiles (old_len new_len : Nat) :
    ∀ (hunks : List DiffHunk) (op np : Nat),
      hunksChain old_len new_len op np hunks = true →
      tilesFromTo op old_len
          ((align_loop old_len new_len op np hunks).map fun r => r.before) = true ∧
      tilesFromTo np new_len
          ((align_loop old_len new_len op np hunks).map fun r => r.after) = true := by
  intro hunks
  induction hunks with
  | nil =>
    intro op np hchain
    rw [hunksChain, Bool.and_eq_true, decide_eq_true_eq, decide_eq_true_eq] at hchain
    by_cases h : op < old_len ∨ np < new_len <;>
      simp [align_loop, h, tilesFromTo, hchain.1, hchain.2] <;> omega
  | cons hk rest ih =>
    intro op np hchain
    rw [hunksChain, Bool.and_eq_true, Bool.and_eq_true, decide_eq_true_eq,
      decide_eq_true_eq] at hchain
    obtain ⟨⟨hop, hnp⟩, hrest⟩ := hchain
    obtain ⟨ihb, iha⟩ := ih (hk.old_start + hk.old_lines) (hk.new_start + hk.new_lines)
      hrest
    simp only [align_loop, List.map_append, List.map_cons]
    constructor
    · refine tilesFromTo_append _ op hk.old_start old_len _ ?_ ?_
      · by_cases h : op < hk.old_start ∨ np < hk.new_start <;>
          simp [h, tilesFromTo, hop] <;> omega
      · simp only [tilesFromTo, Bool.and_eq_true]
        exact ⟨⟨by simp, by simp⟩, ihb⟩
    · refine tilesFromTo_append _ np hk.new_start new_len _ ?_ ?_
      · by_cases h : op < hk.old_start ∨ np < hk.new_start <;>
          simp [h, tilesFromTo, hnp] <;> omega
      · simp only [tilesFromTo, Bool.and_eq_true]
        exact ⟨⟨by simp, by simp⟩, iha⟩

end RefDiff

/-- Claim C2: for any line counts and any hunk list satisfying the
ordering precondition, the alignment builder's ranges tile
`[0, old_len)` with their before-spans and `[0, new_len)` with their
after-spans: contiguous, gapless and non-overlapping, starting at 0 and
ending at the respective total. -/
theorem alignment_partition (old_len new_len : Nat)
    (hunks : List RefDiff.DiffHunk)
    (hchain : RefDiff.hunksChain old_len new_len 0 0 hunks = true) :
    RefDiff.tilesFromTo 0 old_len
        ((RefDiff.build_ranges old_len new_len hunks).map fun r => r.before) =
      true ∧
    RefDiff.tilesFromTo 0 new_len
        ((RefDiff.build_ranges old_len new_len hunks).map fun r => r.after) =
      true := by
  by_cases hz : old_len = 0 ∧ new_len = 0
  · simp [RefDiff.build_ranges, hz, RefDiff.tilesFromTo, hz.1, hz.2]
  · match hunks, hchain with
    | [], hchain =>
      rw [RefDiff.hunksChain, Bool.and_eq_true, decide_eq_true_eq,
        decide_eq_true_eq] at hchain
      by_cases h0 : old_len = 0 ∨ new_len = 0 <;>
        simp [RefDiff.build_ranges, hz, h0, RefDiff.tilesFromTo]
    | hk :: rest, hchain =>
      have h := RefDiff.align_loop_tiles old_len new_len (hk :: rest) 0 0 hchain
      simpa [RefDiff.build_ranges, hz] using h

/-- Witness for claim C2: one interior hunk on a three-line file tiles
both sides. -/
theorem alignment_partition_witness :
    RefDiff.hunksChain 3 3 0 0 [⟨1, 1, 1, 1, "h", []⟩] = true ∧
    (RefDiff.tilesFromTo 0 3
        ((RefDiff.build_ranges 3 3 [⟨1, 1, 1, 1, "h", []⟩]).map
          fun r => r.before) = true ∧
      RefDiff.tilesFromTo 0 3
        ((RefDiff.build_ranges 3 3 [⟨1, 1, 1, 1, "h", []⟩]).map
          fun r => r.after) = true) :=
  ⟨by decide, alignment_partition 3 3 [⟨1, 1, 1, 1, "h", []⟩] (by decide)⟩

namespace RefDiff

theorem contains_of_take (l : List Char) (n : Nat) (a : Char)
    (h : (l.take n).contains a = true) : l.contains a = true := by
  rw [List.contains_eq_any_beq] at h ⊢
  rw [List.any_eq_true] at h ⊢
  obtain ⟨x, hx, hxa⟩ := h
  exact ⟨x, List.mem_of_mem_take hx, hxa⟩

end RefDiff

/-- Claim C6: whenever the before or after content is binary under the
null-byte-in-the-first-8-KB rule, `get_ref_diff` short-circuits to a
`FileDiff` with `is_binary = true`, no hunks, empty line vectors on both
sides and empty ranges, without splitting any lines. -/
theorem binary_short_circuit (file_path : String)
    (before_content after_content : Option String)
    (git_hunks : List RefDiff.DiffHunk)
    (hbin :
      (∃ s, before_content = some s ∧
        (s.data.take 8192).contains (Char.ofNat 0) = true) ∨
      (∃ s, after_content = some s ∧
        (s.data.take 8192).contains (Char.ofNat 0) = true)) :
    ∃ d, RefDiff.get_ref_diff_core file_path before_content after_content
        git_hunks = Except.ok d ∧
      d.is_binary = true ∧ d.hunks = [] ∧ d.before.lines = [] ∧
      d.after.lines = [] ∧ d.ranges = [] := by
  rcases hbin with ⟨s, rfl, hs⟩ | ⟨s, rfl, hs⟩
  · have hb : RefDiff.is_binary_content s = true :=
      RefDiff.contains_of_take s.data 8192 (Char.ofNat 0) hs
    simp only [RefDiff.get_ref_diff_core, Option.isNone_some, Bool.false_and,
      Bool.false_eq_true, if_false, Option.map_some', Option.getD_some, hb,
      if_true]
    exact ⟨_, rfl, rfl, rfl, rfl, rfl, rfl⟩
  · have hb : RefDiff.is_binary_content s = true :=
      RefDiff.contains_of_take s.data 8192 (Char.ofNat 0) hs
    cases before_content with
    | none =>
      simp only [RefDiff.get_ref_diff_core, Option.isNone_some, Option.isNone_none,
        Bool.true_and, Bool.false_eq_true, if_false, Option.map_some',
        Option.map_none', Option.getD_none, Option.getD_some, hb, if_true]
      exact ⟨_, rfl, rfl, rfl, rfl, rfl, rfl⟩
    | some t =>
      by_cases hbt : RefDiff.is_binary_content t = true
      · simp only [RefDiff.get_ref_diff_core, Option.isNone_some, Bool.false_and,
          Bool.false_eq_true, if_false, Option.map_some', Option.getD_some, hbt,
          if_true]
        exact ⟨_, rfl, rfl, rfl, rfl, rfl, rfl⟩
      · rw [Bool.not_eq_true] at hbt
        simp only [RefDiff.get_ref_diff_core, Option.isNone_some, Bool.false_and,
          Bool.false_eq_true, if_false, Option.map_some', Option.getD_some, hbt,
          hb, if_true]
        exact ⟨_, rfl, rfl, rfl, rfl, rfl, rfl⟩

/-- Witness for claim C6: a null character in the before content of a
two-sided diff short-circuits to the binary result. -/
theorem binary_short_circuit_witness :
    ∃ d, RefDiff.get_ref_diff_core "p" (some "a\x00b") (some "x") [] =
        Except.ok d ∧
      d.is_binary = true ∧ d.hunks = [] ∧ d.before.lines = [] ∧
      d.after.lines = [] ∧ d.ranges = [] :=
  binary_short_circuit "p" (some "a\x00b") (some "x") []
    (Or.inl ⟨"a\x00b", rfl, by decide⟩)
